import Mathlib

/-!
Shallow embedding of the `parse_mediawiki_dump` crate (src/src/lib.rs), a
streaming parser for MediaWiki XML export dumps.

The external XML tokenizer (`xml::reader::EventReader`) is modelled as a
finite list of results (`Except XmlError XmlEvent`) together with a counter
of already-consumed results, which stands for the opaque stream position
(`xml::common::TextPosition`): positions are only ever stored in errors for
diagnostics, never compared, so the consumed-events count is a faithful
abstraction.
-/

/-- Error of the underlying XML reader (`xml::reader::Error`), opaque to the
crate. `eof` models the reader running out of input. -/
inductive XmlError
  | eof
  | custom (code : Nat)
deriving DecidableEq, Repr

/-- Qualified XML name (`xml::name::OwnedName`). The original also carries a
`local part / URI` pair plus a namespace alias field that the crate never
consults; only the local name and the namespace URI are kept. -/
structure OwnedName where
  local_name : String
  «namespace» : Option String
deriving DecidableEq, Repr

/-- XML pull events (`xml::reader::XmlEvent`); constructors the crate never
distinguishes (`StartDocument`, `EndDocument`, comments, whitespace, CData,
processing instructions) are collapsed into `other`, since every match in the
crate sends them to a `_` arm. -/
inductive XmlEvent
  | startElement (name : OwnedName)
  | endElement
  | characters (content : String)
  | other
deriving DecidableEq, Repr

/-- The XML event source: the remaining results and the count of results
already consumed, standing for the stream position. -/
structure Reader where
  events : List (Except XmlError XmlEvent)
  pos : Nat
deriving Repr

/-- One pull from the event source (`EventReader::next`). On an exhausted
source the reader reports an end-of-file error and stays put. -/
def Reader.next : Reader → (Except XmlError XmlEvent) × Reader
  | ⟨[], p⟩ => (.error .eof, ⟨[], p⟩)
  | ⟨e :: rest, p⟩ => (e, ⟨rest, p + 1⟩)

/-- The error type for `Parser` (`enum Error` in the crate). -/
inductive Error
  | Format (position : Nat)
  | NotSupported (position : Nat)
  | XmlReader (error : XmlError)
deriving DecidableEq, Repr

/-- Parsed page (`struct Page`). The `namespace` field is `u32` in the
source; it is only ever produced by the `u32` string parse, which rejects
values above `u32::MAX`, so a `Nat` carries it faithfully. -/
structure Page where
  format : Option String
  model : Option String
  «namespace» : Nat
  text : String
  title : String
deriving DecidableEq, Repr

/-- Parser working as an iterator over pages (`struct Parser`). -/
structure Parser where
  event_reader : Reader
  started : Bool
deriving Repr

/-- `fn match_namespace`: whether a qualified name lies in the MediaWiki
export namespace. The same test is inlined at three further places in the
source; the definition is reused for all of them. -/
def match_namespace (name : OwnedName) : Bool :=
  match name.«namespace» with
  | none => false
  | some «namespace» => «namespace» == "http://www.mediawiki.org/xml/export-0.10/"

/-- `fn parse_text`: reads the leaf text of a simple element. Fails if the
destination slot is already set; accepts character data immediately followed
by the end tag, or an immediately-closing empty element. -/
def parse_text {α : Type} (event_reader : Reader) (output : Option α) :
    (Except Error String) × Reader :=
  if output.isSome then (.error (.Format event_reader.pos), event_reader) else
  match event_reader with
  | ⟨[], p⟩ => (.error (.XmlReader .eof), ⟨[], p⟩)
  | ⟨.error e :: rest, p⟩ => (.error (.XmlReader e), ⟨rest, p + 1⟩)
  | ⟨.ok (.characters characters) :: rest, p⟩ =>
    match rest with
    | [] => (.error (.XmlReader .eof), ⟨[], p + 1⟩)
    | .error e :: rest2 => (.error (.XmlReader e), ⟨rest2, p + 2⟩)
    | .ok .endElement :: rest2 => (.ok characters, ⟨rest2, p + 2⟩)
    | .ok _ :: rest2 => (.error (.Format (p + 2)), ⟨rest2, p + 2⟩)
  | ⟨.ok .endElement :: rest, p⟩ => (.ok "", ⟨rest, p + 1⟩)
  | ⟨.ok _ :: rest, p⟩ => (.error (.Format (p + 1)), ⟨rest, p + 1⟩)

/-- Loop body of `fn skip_element`: discards events until the end tag
matching the already-consumed start tag, with `level` counting the current
nesting depth. The loop also exits, silently, when the reader reports an
error. -/
def skip_element_loop : List (Except XmlError XmlEvent) → Nat → Nat → Reader
  | [], p, _ => ⟨[], p⟩
  | .error _ :: rest, p, _ => ⟨rest, p + 1⟩
  | .ok ev :: rest, p, level =>
    match ev with
    | .endElement =>
      if level == 0 then ⟨rest, p + 1⟩ else skip_element_loop rest (p + 1) (level - 1)
    | .startElement _ => skip_element_loop rest (p + 1) (level + 1)
    | _ => skip_element_loop rest (p + 1) level

/-- `fn skip_element`: discards a whole subtree, starting just after its
start tag, with the nesting counter starting at zero. -/
def skip_element (event_reader : Reader) : Reader :=
  skip_element_loop event_reader.events event_reader.pos 0

/-- Modelled behaviour of Rust `str::parse::<u32>` (standard library,
external to the crate): an optional leading `+`, then one or more ASCII
digits whose value must not exceed `u32::MAX`; anything else fails. -/
def parseU32 (s : String) : Option Nat :=
  let digits := match s.data with
    | '+' :: rest => rest
    | cs => cs
  if digits = [] then none
  else if digits.all Char.isDigit then
    let value := digits.foldl (fun acc c => acc * 10 + (c.toNat - 48)) 0
    if value ≤ 4294967295 then some value else none
  else none

theorem parse_text_events_length {α : Type} (r : Reader) (o : Option α) :
    ((parse_text r o).2).events.length ≤ r.events.length := by
  obtain ⟨evs, p⟩ := r
  cases o with
  | some a => simp [parse_text]
  | none =>
    match evs with
    | [] => simp [parse_text]
    | .error e :: rest => simp [parse_text]
    | .ok (.characters c) :: [] => simp [parse_text]
    | .ok (.characters c) :: .error e :: rest2 => simp [parse_text]; omega
    | .ok (.characters c) :: .ok .endElement :: rest2 => simp [parse_text]; omega
    | .ok (.characters c) :: .ok (.startElement n) :: rest2 => simp [parse_text]; omega
    | .ok (.characters c) :: .ok (.characters c2) :: rest2 => simp [parse_text]; omega
    | .ok (.characters c) :: .ok .other :: rest2 => simp [parse_text]; omega
    | .ok .endElement :: rest => simp [parse_text]
    | .ok (.startElement n) :: rest => simp [parse_text]
    | .ok .other :: rest => simp [parse_text]

theorem skip_element_loop_events_length :
    ∀ (evs : List (Except XmlError XmlEvent)) (p level : Nat),
      (skip_element_loop evs p level).events.length ≤ evs.length := by
  intro evs
  induction evs with
  | nil => intro p level; simp [skip_element_loop]
  | cons e rest ih =>
    intro p level
    match e with
    | .error e => simp [skip_element_loop]
    | .ok .endElement =>
      by_cases h : level = 0
      · simp [skip_element_loop, h]
      · simp only [skip_element_loop]
        rw [if_neg (by simpa using h)]
        exact le_trans (ih _ _) (Nat.le_succ _)
    | .ok (.startElement n) =>
      simp only [skip_element_loop]
      exact le_trans (ih _ _) (Nat.le_succ _)
    | .ok (.characters c) =>
      simp only [skip_element_loop]
      exact le_trans (ih _ _) (Nat.le_succ _)
    | .ok .other =>
      simp only [skip_element_loop]
      exact le_trans (ih _ _) (Nat.le_succ _)

theorem skip_element_events_length (r : Reader) :
    (skip_element r).events.length ≤ r.events.length :=
  skip_element_loop_events_length r.events r.pos 0

/-- The innermost loop of `fn next`, entered on a `revision` start tag:
collects `format`, `model` and `text`, skips anything else, and at the
revision end tag demands that `text` was assigned. On success it hands the
updated accumulator slots back to the page loop. -/
def next_revision : Reader → Option String → Option String → Option String →
    (Except Error (Option String × Option String × Option String)) × Reader
  | ⟨[], p⟩, _, _, _ => (.error (.XmlReader .eof), ⟨[], p⟩)
  | ⟨.error e :: rest, p⟩, _, _, _ => (.error (.XmlReader e), ⟨rest, p + 1⟩)
  | ⟨.ok ev :: rest, p⟩, format, model, text =>
    match ev with
    | .endElement =>
      match text with
      | none => (.error (.Format (p + 1)), ⟨rest, p + 1⟩)
      | some t => (.ok (format, model, some t), ⟨rest, p + 1⟩)
    | .startElement name =>
      if match_namespace name then
        if name.local_name == "format" then
          let pr := parse_text ⟨rest, p + 1⟩ format
          match pr.1 with
          | .error e => (.error e, pr.2)
          | .ok s => next_revision pr.2 (some s) model text
        else if name.local_name == "model" then
          let pr := parse_text ⟨rest, p + 1⟩ model
          match pr.1 with
          | .error e => (.error e, pr.2)
          | .ok s => next_revision pr.2 format (some s) text
        else if name.local_name == "text" then
          let pr := parse_text ⟨rest, p + 1⟩ text
          match pr.1 with
          | .error e => (.error e, pr.2)
          | .ok s => next_revision pr.2 format model (some s)
        else next_revision (skip_element ⟨rest, p + 1⟩) format model text
      else next_revision (skip_element ⟨rest, p + 1⟩) format model text
    | _ => next_revision ⟨rest, p + 1⟩ format model text
termination_by r _ _ _ => r.events.length
decreasing_by
  all_goals simp_wf
  all_goals first
    | exact Nat.lt_succ_of_le (parse_text_events_length _ _)
    | exact Nat.lt_succ_of_le (skip_element_events_length _)

theorem next_revision_events_length (r : Reader) (f m t : Option String) :
    ((next_revision r f m t).2).events.length ≤ r.events.length := by
  induction r, f, m, t using next_revision.induct <;> simp_all [next_revision]
  all_goals try (rename_i ih; exact le_trans ih (le_trans (skip_element_events_length _) (Nat.le_succ _)))
  all_goals try (rename_i ih; exact le_trans ih (Nat.le_succ _))
  all_goals split
  all_goals try exact le_trans (parse_text_events_length _ _) (Nat.le_succ _)
  all_goals simp_all +zetaDelta
  all_goals exact le_trans (by assumption) (le_trans (parse_text_events_length _ _) (Nat.le_succ _))

/-- The page loop of `fn next`, entered on a `page` start tag: collects
`ns`, `title` and (through `next_revision`) the revision fields, skips
anything else, and at the page end tag either assembles the `Page` or fails
if a required slot is missing. A `revision` start tag when `text` is already
set is the unsupported second revision. -/
def next_page : Reader → Option String → Option String → Option Nat → Option String →
    Option String → (Except Error (Option Page)) × Reader
  | ⟨[], p⟩, _, _, _, _, _ => (.error (.XmlReader .eof), ⟨[], p⟩)
  | ⟨.error e :: rest, p⟩, _, _, _, _, _ => (.error (.XmlReader e), ⟨rest, p + 1⟩)
  | ⟨.ok ev :: rest, p⟩, format, model, «namespace», text, title =>
    match ev with
    | .endElement =>
      match «namespace», text, title with
      | some ns, some tx, some ti =>
        (.ok (some { format := format, model := model, «namespace» := ns, text := tx, title := ti }),
          ⟨rest, p + 1⟩)
      | _, _, _ => (.error (.Format (p + 1)), ⟨rest, p + 1⟩)
    | .startElement name =>
      if match_namespace name then
        if name.local_name == "ns" then
          let pr := parse_text ⟨rest, p + 1⟩ «namespace»
          match pr.1 with
          | .error e => (.error e, pr.2)
          | .ok s =>
            match parseU32 s with
            | none => (.error (.Format pr.2.pos), pr.2)
            | some value => next_page pr.2 format model (some value) text title
        else if name.local_name == "revision" then
          if text.isSome then (.error (.NotSupported (p + 1)), ⟨rest, p + 1⟩)
          else
            let rr := next_revision ⟨rest, p + 1⟩ format model text
            match rr.1 with
            | .error e => (.error e, rr.2)
            | .ok fmt => next_page rr.2 fmt.1 fmt.2.1 «namespace» fmt.2.2 title
        else if name.local_name == "title" then
          let pr := parse_text ⟨rest, p + 1⟩ title
          match pr.1 with
          | .error e => (.error e, pr.2)
          | .ok s => next_page pr.2 format model «namespace» text (some s)
        else next_page (skip_element ⟨rest, p + 1⟩) format model «namespace» text title
      else next_page (skip_element ⟨rest, p + 1⟩) format model «namespace» text title
    | _ => next_page ⟨rest, p + 1⟩ format model «namespace» text title
termination_by r _ _ _ _ _ => r.events.length
decreasing_by
  all_goals simp_wf
  all_goals first
    | exact Nat.lt_succ_of_le (parse_text_events_length _ _)
    | exact Nat.lt_succ_of_le (skip_element_events_length _)
    | exact Nat.lt_succ_of_le (next_revision_events_length _ _ _ _)

/-- The root loop of `fn next`: on the root end tag the iteration is over
(`Ok(None)`); a `page` start tag in the export namespace enters the page
loop with a fresh, fully-unset accumulator; every other element is
skipped. -/
def next_root : Reader → (Except Error (Option Page)) × Reader
  | ⟨[], p⟩ => (.error (.XmlReader .eof), ⟨[], p⟩)
  | ⟨.error e :: rest, p⟩ => (.error (.XmlReader e), ⟨rest, p + 1⟩)
  | ⟨.ok ev :: rest, p⟩ =>
    match ev with
    | .endElement => (.ok none, ⟨rest, p + 1⟩)
    | .startElement name =>
      if match_namespace name && name.local_name == "page" then
        next_page ⟨rest, p + 1⟩ none none none none none
      else next_root (skip_element ⟨rest, p + 1⟩)
    | _ => next_root ⟨rest, p + 1⟩
termination_by r => r.events.length
decreasing_by
  all_goals simp_wf
  all_goals exact Nat.lt_succ_of_le (skip_element_events_length _)

/-- The start-up loop of `fn next`, run while `parser.started` is false:
consumes events until the first start tag, which must be `mediawiki` in the
export namespace; any other first start tag is a format error at the
current position. -/
def find_root : Reader → (Except Error Unit) × Reader
  | ⟨[], p⟩ => (.error (.XmlReader .eof), ⟨[], p⟩)
  | ⟨.error e :: rest, p⟩ => (.error (.XmlReader e), ⟨rest, p + 1⟩)
  | ⟨.ok ev :: rest, p⟩ =>
    match ev with
    | .startElement name =>
      if match_namespace name && name.local_name == "mediawiki" then (.ok (), ⟨rest, p + 1⟩)
      else (.error (.Format (p + 1)), ⟨rest, p + 1⟩)
    | _ => find_root ⟨rest, p + 1⟩
termination_by r => r.events.length

/-- `fn next`: one step of the parser. While not yet `started` it first runs
the root search (`find_root`), setting the `started` flag only once the root
was accepted; then one round of the root loop produces either a page,
`None` for end of document, or an error. -/
def next (parser : Parser) : (Except Error (Option Page)) × Parser :=
  if parser.started then
    let res := next_root parser.event_reader
    (res.1, ⟨res.2, true⟩)
  else
    let fr := find_root parser.event_reader
    match fr.1 with
    | .error e => (.error e, ⟨fr.2, false⟩)
    | .ok _ =>
      let res := next_root fr.2
      (res.1, ⟨res.2, true⟩)

/-- `<Parser as Iterator>::next`: `None` signals exhaustion (the free
function returned `Ok(None)`), otherwise one `Result<Page, Error>` is
yielded. -/
def iterNext (parser : Parser) : Option (Except Error Page) × Parser :=
  match next parser with
  | (.error e, parser2) => (some (.error e), parser2)
  | (.ok none, parser2) => (none, parser2)
  | (.ok (some page), parser2) => (some (.ok page), parser2)

/-- `pub fn parse`: creates a parser for a stream of tokenizer results. -/
def parse (source : List (Except XmlError XmlEvent)) : Parser :=
  { event_reader := ⟨source, 0⟩, started := false }

/-- The first `n` results of repeatedly calling the iterator. -/
def iterOut : Parser → Nat → List (Option (Except Error Page))
  | _, 0 => []
  | parser, n + 1 =>
    let step := iterNext parser
    step.1 :: iterOut step.2 n

/-- C5: the leaf-text extractor `parse_text` fails with `FormatError` when
the destination slot is already set (so a duplicate scalar field, e.g. a
second `ns` inside one `page`, is rejected, never silently overwritten);
it returns the character data when immediately followed by the matching end
tag; an immediately-closing empty element yields the empty string (not an
error, not absence); and any other event shape is a `FormatError`. -/
theorem C5_parse_text_contract :
    (∀ (α : Type) (r : Reader) (o : Option α), o.isSome →
        parse_text r o = (.error (.Format r.pos), r))
  ∧ (∀ (s : String) (rest : List (Except XmlError XmlEvent)) (p : Nat),
        parse_text (⟨.ok (.characters s) :: .ok .endElement :: rest, p⟩ : Reader) (none : Option String)
          = (.ok s, ⟨rest, p + 2⟩))
  ∧ (∀ (rest : List (Except XmlError XmlEvent)) (p : Nat),
        parse_text (⟨.ok .endElement :: rest, p⟩ : Reader) (none : Option String)
          = (.ok "", ⟨rest, p + 1⟩))
  ∧ (∀ (ev : XmlEvent) (rest : List (Except XmlError XmlEvent)) (p : Nat),
        ev ≠ .endElement → (∀ s, ev ≠ .characters s) →
        parse_text (⟨.ok ev :: rest, p⟩ : Reader) (none : Option String)
          = (.error (.Format (p + 1)), ⟨rest, p + 1⟩))
  ∧ (∀ (s : String) (ev : XmlEvent) (rest : List (Except XmlError XmlEvent)) (p : Nat),
        ev ≠ .endElement →
        parse_text (⟨.ok (.characters s) :: .ok ev :: rest, p⟩ : Reader) (none : Option String)
          = (.error (.Format (p + 2)), ⟨rest, p + 2⟩))
  ∧ (∀ (name : OwnedName) (rest : List (Except XmlError XmlEvent)) (p : Nat)
        (f m : Option String) (v : Nat) (tx ti : Option String),
        match_namespace name = true → name.local_name = "ns" →
        next_page (⟨.ok (.startElement name) :: rest, p⟩ : Reader) f m (some v) tx ti
          = (.error (.Format (p + 1)), ⟨rest, p + 1⟩)) := by
  refine ⟨?_, ?_, ?_, ?_, ?_, ?_⟩
  · intro α r o ho
    obtain ⟨evs, p⟩ := r
    simp [parse_text, ho]
  · intro s rest p; simp [parse_text]
  · intro rest p; simp [parse_text]
  · intro ev rest p h1 h2
    cases ev with
    | startElement n => simp [parse_text]
    | endElement => exact absurd rfl h1
    | characters s => exact absurd rfl (h2 s)
    | other => simp [parse_text]
  · intro s ev rest p h1
    cases ev with
    | startElement n => simp [parse_text]
    | endElement => exact absurd rfl h1
    | characters s2 => simp [parse_text]
    | other => simp [parse_text]
  · intro name rest p f m v tx ti hns hname
    simp [next_page, hns, hname, parse_text]

/-- C9: if the underlying reader reports an error while `skip_element` is
consuming a skipped subtree, the skip loop terminates silently at that first
error: it returns normally, without propagating the error and without
consuming anything further, so the subtree's closing end tag need not have
been reached (the level counter is arbitrary at that point). -/
theorem C9_skip_stops_at_error :
    (∀ (e : XmlError) (rest : List (Except XmlError XmlEvent)) (p level : Nat),
        skip_element_loop (.error e :: rest) p level = ⟨rest, p + 1⟩)
  ∧ (∀ (p level : Nat), skip_element_loop [] p level = ⟨[], p⟩)
  ∧ (∀ (e : XmlError) (rest : List (Except XmlError XmlEvent)) (p : Nat),
        skip_element ⟨.error e :: rest, p⟩ = ⟨rest, p + 1⟩)
  ∧ (∀ (name : OwnedName) (e : XmlError) (rest : List (Except XmlError XmlEvent)) (p : Nat),
        skip_element ⟨.ok (.startElement name) :: .error e :: rest, p⟩ = ⟨rest, p + 2⟩) := by
  refine ⟨?_, ?_, ?_, ?_⟩
  · intro e rest p level; simp [skip_element_loop]
  · intro p level; simp [skip_element_loop]
  · intro e rest p; simp [skip_element, skip_element_loop]
  · intro name e rest p
    simp [skip_element, skip_element_loop]

/-- C6: on a fresh parser, `next` consumes events until the first start
tag; a first start tag that is not `mediawiki` in the export namespace
(wrong local name, wrong or absent namespace) is a `FormatError` at that
very event; a matching root is accepted, and `next` then sets the `started`
flag, after which the root check is never performed again: a started parser
goes directly to the root loop. -/
theorem C6_root_check :
    (∀ (ev : XmlEvent) (rest : List (Except XmlError XmlEvent)) (p : Nat),
        (∀ n, ev ≠ .startElement n) →
        find_root ⟨.ok ev :: rest, p⟩ = find_root ⟨rest, p + 1⟩)
  ∧ (∀ (name : OwnedName) (rest : List (Except XmlError XmlEvent)) (p : Nat),
        ¬(match_namespace name = true ∧ name.local_name = "mediawiki") →
        find_root ⟨.ok (.startElement name) :: rest, p⟩ = (.error (.Format (p + 1)), ⟨rest, p + 1⟩))
  ∧ (∀ (name : OwnedName) (rest : List (Except XmlError XmlEvent)) (p : Nat),
        match_namespace name = true → name.local_name = "mediawiki" →
        find_root ⟨.ok (.startElement name) :: rest, p⟩ = (.ok (), ⟨rest, p + 1⟩))
  ∧ (∀ (r : Reader),
        next ⟨r, false⟩ =
          match (find_root r).1 with
          | .error e => (.error e, ⟨(find_root r).2, false⟩)
          | .ok _ => ((next_root (find_root r).2).1, ⟨(next_root (find_root r).2).2, true⟩))
  ∧ (∀ (r : Reader), next ⟨r, true⟩ = ((next_root r).1, ⟨(next_root r).2, true⟩)) := by
  refine ⟨?_, ?_, ?_, ?_, ?_⟩
  · intro ev rest p h
    cases ev with
    | startElement n => exact absurd rfl (h n)
    | endElement => simp [find_root]
    | characters s => simp [find_root]
    | other => simp [find_root]
  · intro name rest p h
    rw [not_and_or] at h
    rcases h with h | h
    · simp at h
      simp [find_root, h]
    · simp [find_root, h]
  · intro name rest p h1 h2
    simp [find_root, h1, h2]
  · intro r
    simp only [next]
    rcases hfr : (find_root r).1 with e | u
    · simp [hfr]
    · simp [hfr]
  · intro r
    simp [next]

def startEvent (local_name : String) : Except XmlError XmlEvent :=
  .ok (.startElement ⟨local_name, some "http://www.mediawiki.org/xml/export-0.10/"⟩)

def endEvent : Except XmlError XmlEvent := .ok .endElement

def charactersEvent (s : String) : Except XmlError XmlEvent := .ok (.characters s)

def document_missing_revision : List (Except XmlError XmlEvent) :=
  [startEvent "mediawiki", startEvent "page", startEvent "title", charactersEvent "T", endEvent,
   startEvent "ns", charactersEvent "0", endEvent, endEvent]

def document_empty_revision : List (Except XmlError XmlEvent) :=
  [startEvent "mediawiki", startEvent "page", startEvent "title", charactersEvent "T", endEvent,
   startEvent "ns", charactersEvent "0", endEvent, startEvent "revision", endEvent, endEvent, endEvent]

def document_two_revisions : List (Except XmlError XmlEvent) :=
  [startEvent "mediawiki", startEvent "page", startEvent "title", charactersEvent "T", endEvent,
   startEvent "ns", charactersEvent "0", endEvent,
   startEvent "revision", startEvent "text", charactersEvent "X", endEvent, endEvent,
   startEvent "revision", startEvent "text", charactersEvent "Y", endEvent, endEvent, endEvent, endEvent]

/-- C4: a `revision` start tag in the export namespace reached while
`text` is already set makes the page loop fail with `NotSupportedError` at
the current stream position — not `FormatError`, and no `Page` is silently
assembled; end to end, a document whose page holds two revisions fails this
way at the second `revision` start tag. -/
theorem C4_second_revision_not_supported :
    (∀ (name : OwnedName) (rest : List (Except XmlError XmlEvent)) (p : Nat)
        (f m : Option String) (ns : Option Nat) (tx : String) (ti : Option String),
        match_namespace name = true → name.local_name = "revision" →
        next_page (⟨.ok (.startElement name) :: rest, p⟩ : Reader) f m ns (some tx) ti
          = (.error (.NotSupported (p + 1)), ⟨rest, p + 1⟩))
  ∧ (next (parse document_two_revisions)).1 = .error (.NotSupported 14) := by
  constructor
  · intro name rest p f m ns tx ti hns hname
    simp [next_page, hns, hname]
  · simp [document_two_revisions, parse, next, find_root, next_root, next_page, next_revision,
      parse_text, parseU32, startEvent, endEvent, charactersEvent, match_namespace]

/-- C3: at a `page` end tag with `namespace`, `text` or `title` still
unset, the page loop fails with `FormatError` carrying the current stream
position; a revision end tag reached before any `text` fails likewise; in
particular, end to end, a page with no `revision` fails at the page end tag
and a page whose revision is empty fails at the revision end tag. -/
theorem C3_missing_required_field :
    (∀ (rest : List (Except XmlError XmlEvent)) (p : Nat) (f m : Option String)
        (ns : Option Nat) (tx ti : Option String),
        ns = none ∨ tx = none ∨ ti = none →
        next_page (⟨.ok .endElement :: rest, p⟩ : Reader) f m ns tx ti
          = (.error (.Format (p + 1)), ⟨rest, p + 1⟩))
  ∧ (∀ (rest : List (Except XmlError XmlEvent)) (p : Nat) (f m : Option String),
        next_revision (⟨.ok .endElement :: rest, p⟩ : Reader) f m none
          = (.error (.Format (p + 1)), ⟨rest, p + 1⟩))
  ∧ (next (parse document_missing_revision)).1 = .error (.Format 9)
  ∧ (next (parse document_empty_revision)).1 = .error (.Format 10) := by
  refine ⟨?_, ?_, ?_, ?_⟩
  · intro rest p f m ns tx ti h
    rcases ns with _ | nsv <;> rcases tx with _ | txv <;> rcases ti with _ | tiv <;>
      simp_all [next_page]
  · intro rest p f m
    simp [next_revision]
  · simp [document_missing_revision, parse, next, find_root, next_root, next_page, next_revision,
      parse_text, parseU32, startEvent, endEvent, charactersEvent, match_namespace]
  · simp [document_empty_revision, parse, next, find_root, next_root, next_page, next_revision,
      parse_text, parseU32, startEvent, endEvent, charactersEvent, match_namespace]

/-- C7: the leaf text of an `ns` element in the export namespace is parsed
as an unsigned 32-bit integer and stored into the page accumulator's
`namespace` slot; text rejected by the `u32` parse makes the page loop fail
with `FormatError` at the current stream position (also in the
empty-element form, whose text is the non-numeric empty string). -/
theorem C7_ns_parsed_as_u32 :
    (∀ (name : OwnedName) (s : String) (rest : List (Except XmlError XmlEvent)) (p : Nat)
        (f m : Option String) (tx ti : Option String),
        match_namespace name = true → name.local_name = "ns" →
        parseU32 s = none →
        next_page (⟨.ok (.startElement name) :: .ok (.characters s) :: .ok .endElement :: rest, p⟩ : Reader)
            f m none tx ti
          = (.error (.Format (p + 3)), ⟨rest, p + 3⟩))
  ∧ (∀ (name : OwnedName) (s : String) (v : Nat) (rest : List (Except XmlError XmlEvent)) (p : Nat)
        (f m : Option String) (tx ti : Option String),
        match_namespace name = true → name.local_name = "ns" →
        parseU32 s = some v →
        next_page (⟨.ok (.startElement name) :: .ok (.characters s) :: .ok .endElement :: rest, p⟩ : Reader)
            f m none tx ti
          = next_page (⟨rest, p + 3⟩ : Reader) f m (some v) tx ti)
  ∧ (∀ (name : OwnedName) (rest : List (Except XmlError XmlEvent)) (p : Nat)
        (f m : Option String) (tx ti : Option String),
        match_namespace name = true → name.local_name = "ns" →
        next_page (⟨.ok (.startElement name) :: .ok .endElement :: rest, p⟩ : Reader) f m none tx ti
          = (.error (.Format (p + 2)), ⟨rest, p + 2⟩)) := by
  refine ⟨?_, ?_, ?_⟩
  · intro name s rest p f m tx ti hns hname hparse
    simp [next_page, hns, hname, parse_text, hparse]
  · intro name s v rest p f m tx ti hns hname hparse
    simp [next_page, hns, hname, parse_text, hparse]
  · intro name rest p f m tx ti hns hname
    have : parseU32 "" = none := by simp [parseU32]
    simp [next_page, hns, hname, parse_text, this]

def decimal_value (s : String) : Nat :=
  s.data.foldl (fun acc c => acc * 10 + (c.toNat - 48)) 0

theorem parseU32_all_digits (s : String) (h1 : s.data ≠ []) (h2 : s.data.all Char.isDigit = true) :
    parseU32 s = if decimal_value s ≤ 4294967295 then some (decimal_value s) else none := by
  unfold parseU32 decimal_value
  split
  · rename_i cs heq
    exfalso
    rw [heq] at h2
    simp [List.all_cons, Char.isDigit] at h2
  · rename_i hne
    simp [h1, h2]

/-- C10: an `ns` element whose leaf text is a decimal numeral exceeding
4294967295 is rejected by the `u32` parse, and the page loop reports
`FormatError` at the current stream position — the very same result as for
non-numeric text, so being numeric is not sufficient for acceptance. -/
theorem C10_ns_overflow :
    ∀ (s : String) (name : OwnedName) (rest : List (Except XmlError XmlEvent)) (p : Nat)
      (f m : Option String) (tx ti : Option String),
      s.data ≠ [] → s.data.all Char.isDigit = true → 4294967295 < decimal_value s →
      match_namespace name = true → name.local_name = "ns" →
      parseU32 s = none
      ∧ next_page (⟨.ok (.startElement name) :: .ok (.characters s) :: .ok .endElement :: rest, p⟩ : Reader)
            f m none tx ti
          = (.error (.Format (p + 3)), ⟨rest, p + 3⟩)
      ∧ next_page (⟨.ok (.startElement name) :: .ok (.characters s) :: .ok .endElement :: rest, p⟩ : Reader)
            f m none tx ti
          = next_page (⟨.ok (.startElement name) :: .ok (.characters "x") :: .ok .endElement :: rest, p⟩ : Reader)
            f m none tx ti := by
  intro s name rest p f m tx ti hne hdig hval hns hname
  have hparse : parseU32 s = none := by
    rw [parseU32_all_digits s hne hdig, if_neg (by omega)]
  have hx : parseU32 "x" = none := by simp [parseU32]
  refine ⟨hparse, ?_, ?_⟩
  · simp [next_page, hns, hname, parse_text, hparse]
  · simp [next_page, hns, hname, parse_text, hparse, hx]

def document_example : List (Except XmlError XmlEvent) :=
  [.ok .other,
   startEvent "mediawiki", startEvent "page",
   startEvent "title", charactersEvent "Test", endEvent,
   startEvent "ns", charactersEvent "0", endEvent,
   startEvent "revision", startEvent "text", charactersEvent "Hello", endEvent, endEvent,
   endEvent, endEvent, .ok .other]

/-- C2: for the specification's concrete document, the first call yields
`Ok` of the page with title "Test", namespace 0, no format, no model and
text "Hello", and the second call signals exhaustion. -/
theorem C2_concrete_scenario :
    iterOut (parse document_example) 2 =
      [some (.ok { format := none, model := none, «namespace» := 0, text := "Hello", title := "Test" }),
       none] := by
  simp [document_example, parse, iterOut, iterNext, next, find_root, next_root, next_page,
    next_revision, parse_text, parseU32, startEvent, endEvent, charactersEvent, match_namespace]

/-- Well-bracketed event sequences: the possible contents of an element
(text, ignorable events, and properly nested child elements). -/
inductive BalancedSeq : List XmlEvent → Prop where
  | nil : BalancedSeq []
  | chars (s : String) (l : List XmlEvent) : BalancedSeq l → BalancedSeq (.characters s :: l)
  | other (l : List XmlEvent) : BalancedSeq l → BalancedSeq (.other :: l)
  | elem (name : OwnedName) (inner l : List XmlEvent) : BalancedSeq inner → BalancedSeq l →
      BalancedSeq (.startElement name :: (inner ++ .endElement :: l))

theorem skip_element_loop_balanced {content : List XmlEvent} (h : BalancedSeq content) :
    ∀ (rest : List (Except XmlError XmlEvent)) (p level : Nat),
      skip_element_loop (content.map .ok ++ rest) p level
        = skip_element_loop rest (p + content.length) level := by
  induction h with
  | nil => intro rest p level; simp
  | chars s l h ih =>
    intro rest p level
    simp only [List.map_cons, List.cons_append, skip_element_loop, List.length_cons,
      List.append_eq]
    rw [ih]
    have harith : p + 1 + l.length = p + (l.length + 1) := by omega
    rw [harith]
  | other l h ih =>
    intro rest p level
    simp only [List.map_cons, List.cons_append, skip_element_loop, List.length_cons,
      List.append_eq]
    rw [ih]
    have harith : p + 1 + l.length = p + (l.length + 1) := by omega
    rw [harith]
  | elem name inner l hinner hl ihinner ihl =>
    intro rest p level
    simp only [List.map_cons, List.map_append, List.cons_append, List.append_assoc,
      List.append_eq, skip_element_loop, List.length_cons, List.length_append]
    rw [ihinner]
    simp only [skip_element_loop]
    rw [if_neg (by simp)]
    rw [ihl]
    have harith : p + 1 + inner.length + 1 + l.length
        = p + (inner.length + (l.length + 1) + 1) := by omega
    simp only [Nat.add_sub_cancel, harith]

theorem skip_element_balanced {content : List XmlEvent} (h : BalancedSeq content)
    (rest : List (Except XmlError XmlEvent)) (p : Nat) :
    skip_element ⟨content.map .ok ++ .ok .endElement :: rest, p⟩
      = ⟨rest, p + content.length + 1⟩ := by
  simp only [skip_element, skip_element_loop_balanced h]
  simp [skip_element_loop]

/-- C8: the subtree skipper, driven by its single depth counter, consumes
a balanced subtree of arbitrary nesting depth up to and including the
matching end tag, leaving the reader exactly at the first event after the
subtree; and every unrecognized start tag — wrong local name or wrong or
absent namespace — inside the root, a `page` or a `revision` delegates to
it, so skipping never corrupts extraction of subsequent recognized
fields. -/
theorem C8_subtree_skipper :
    (∀ (content : List XmlEvent) (rest : List (Except XmlError XmlEvent)) (p : Nat),
        BalancedSeq content →
        skip_element ⟨content.map .ok ++ .ok .endElement :: rest, p⟩
          = ⟨rest, p + content.length + 1⟩)
  ∧ (∀ (name : OwnedName) (rest : List (Except XmlError XmlEvent)) (p : Nat),
        ¬(match_namespace name = true ∧ name.local_name = "page") →
        next_root ⟨.ok (.startElement name) :: rest, p⟩
          = next_root (skip_element ⟨rest, p + 1⟩))
  ∧ (∀ (name : OwnedName) (rest : List (Except XmlError XmlEvent)) (p : Nat)
        (f m : Option String) (ns : Option Nat) (tx ti : Option String),
        ¬(match_namespace name = true ∧
          (name.local_name = "ns" ∨ name.local_name = "revision" ∨ name.local_name = "title")) →
        next_page ⟨.ok (.startElement name) :: rest, p⟩ f m ns tx ti
          = next_page (skip_element ⟨rest, p + 1⟩) f m ns tx ti)
  ∧ (∀ (name : OwnedName) (rest : List (Except XmlError XmlEvent)) (p : Nat)
        (f m t : Option String),
        ¬(match_namespace name = true ∧
          (name.local_name = "format" ∨ name.local_name = "model" ∨ name.local_name = "text")) →
        next_revision ⟨.ok (.startElement name) :: rest, p⟩ f m t
          = next_revision (skip_element ⟨rest, p + 1⟩) f m t) := by
  refine ⟨?_, ?_, ?_, ?_⟩
  · intro content rest p h
    exact skip_element_balanced h rest p
  · intro name rest p h
    by_cases hm : match_namespace name = true
    · have hn : name.local_name ≠ "page" := fun hh => h ⟨hm, hh⟩
      simp [next_root, hm, hn]
    · simp [next_root, hm]
  · intro name rest p f m ns tx ti h
    by_cases hm : match_namespace name = true
    · have h1 : name.local_name ≠ "ns" := fun hh => h ⟨hm, Or.inl hh⟩
      have h2 : name.local_name ≠ "revision" := fun hh => h ⟨hm, Or.inr (Or.inl hh)⟩
      have h3 : name.local_name ≠ "title" := fun hh => h ⟨hm, Or.inr (Or.inr hh)⟩
      simp [next_page, hm, h1, h2, h3]
    · simp [next_page, hm]
  · intro name rest p f m t h
    by_cases hm : match_namespace name = true
    · have h1 : name.local_name ≠ "format" := fun hh => h ⟨hm, Or.inl hh⟩
      have h2 : name.local_name ≠ "model" := fun hh => h ⟨hm, Or.inr (Or.inl hh)⟩
      have h3 : name.local_name ≠ "text" := fun hh => h ⟨hm, Or.inr (Or.inr hh)⟩
      simp [next_revision, hm, h1, h2, h3]
    · simp [next_revision, hm]

/-- Body of a leaf element: either character data followed by the end tag,
or an immediately-closing empty element. -/
inductive Leaf
  | chars (s : String)
  | empty

def Leaf.value : Leaf → String
  | .chars s => s
  | .empty => ""

def Leaf.events : Leaf → List XmlEvent
  | .chars s => [.characters s, .endElement]
  | .empty => [.endElement]

theorem parse_text_leaf {α : Type} (l : Leaf) (rest : List (Except XmlError XmlEvent)) (p : Nat) :
    parse_text (⟨l.events.map .ok ++ rest, p⟩ : Reader) (none : Option α)
      = (.ok l.value, ⟨rest, p + l.events.length⟩) := by
  cases l <;> simp [parse_text, Leaf.events, Leaf.value]

/-- One item of the content of a `revision` element. -/
inductive RevItem
  | format (l : Leaf)
  | model (l : Leaf)
  | text (l : Leaf)
  | skip (name : OwnedName) (content : List XmlEvent)
  | stray (ev : XmlEvent)

def RevItem.events : RevItem → List XmlEvent
  | .format l => .startElement ⟨"format", some "http://www.mediawiki.org/xml/export-0.10/"⟩ :: l.events
  | .model l => .startElement ⟨"model", some "http://www.mediawiki.org/xml/export-0.10/"⟩ :: l.events
  | .text l => .startElement ⟨"text", some "http://www.mediawiki.org/xml/export-0.10/"⟩ :: l.events
  | .skip name content => .startElement name :: (content ++ [.endElement])
  | .stray ev => [ev]

/-- Well-formedness of one revision item: a skipped element must be a
balanced subtree whose root is not a recognized revision field, and a stray
event is character data or an ignorable event. -/
def RevItem.ok : RevItem → Prop
  | .skip name content => BalancedSeq content ∧
      ¬(match_namespace name = true ∧
        (name.local_name = "format" ∨ name.local_name = "model" ∨ name.local_name = "text"))
  | .stray ev => ev = .other ∨ ∃ s, ev = .characters s
  | _ => True

def RevItem.isFormat : RevItem → Bool
  | .format _ => true
  | _ => false

def RevItem.isModel : RevItem → Bool
  | .model _ => true
  | _ => false

def RevItem.isText : RevItem → Bool
  | .text _ => true
  | _ => false

def revFormat : List RevItem → Option String
  | [] => none
  | .format l :: _ => some l.value
  | _ :: tail => revFormat tail

def revModel : List RevItem → Option String
  | [] => none
  | .model l :: _ => some l.value
  | _ :: tail => revModel tail

def revText : List RevItem → Option String
  | [] => none
  | .text l :: _ => some l.value
  | _ :: tail => revText tail

/-- First-set-wins merge of an accumulator slot with what later items give. -/
def optMerge {α : Type} (a b : Option α) : Option α :=
  match a with
  | some x => some x
  | none => b

theorem optMerge_none_left {α : Type} (b : Option α) : optMerge none b = b := rfl

theorem optMerge_none_right {α : Type} (a : Option α) : optMerge a none = a := by
  cases a <;> rfl

theorem next_revision_format_step (l : Leaf) (tail : List (Except XmlError XmlEvent)) (p : Nat)
    (m t : Option String) :
    next_revision ⟨(RevItem.format l).events.map .ok ++ tail, p⟩ none m t
      = next_revision ⟨tail, p + (RevItem.format l).events.length⟩ (some l.value) m t := by
  simp only [RevItem.events, List.map_cons, List.cons_append, next_revision, match_namespace,
    List.length_cons]
  rw [parse_text_leaf]
  have harith : p + 1 + l.events.length = p + (l.events.length + 1) := by omega
  rw [harith]
  simp

theorem next_revision_model_step (l : Leaf) (tail : List (Except XmlError XmlEvent)) (p : Nat)
    (f t : Option String) :
    next_revision ⟨(RevItem.model l).events.map .ok ++ tail, p⟩ f none t
      = next_revision ⟨tail, p + (RevItem.model l).events.length⟩ f (some l.value) t := by
  simp only [RevItem.events, List.map_cons, List.cons_append, next_revision, match_namespace,
    List.length_cons]
  rw [parse_text_leaf]
  have harith : p + 1 + l.events.length = p + (l.events.length + 1) := by omega
  rw [harith]
  simp

theorem next_revision_text_step (l : Leaf) (tail : List (Except XmlError XmlEvent)) (p : Nat)
    (f m : Option String) :
    next_revision ⟨(RevItem.text l).events.map .ok ++ tail, p⟩ f m none
      = next_revision ⟨tail, p + (RevItem.text l).events.length⟩ f m (some l.value) := by
  simp only [RevItem.events, List.map_cons, List.cons_append, next_revision, match_namespace,
    List.length_cons]
  rw [parse_text_leaf]
  have harith : p + 1 + l.events.length = p + (l.events.length + 1) := by omega
  rw [harith]
  simp


theorem next_revision_unrecognized (name : OwnedName) (rest : List (Except XmlError XmlEvent))
    (p : Nat) (f m t : Option String)
    (h : ¬(match_namespace name = true ∧
      (name.local_name = "format" ∨ name.local_name = "model" ∨ name.local_name = "text"))) :
    next_revision ⟨.ok (.startElement name) :: rest, p⟩ f m t
      = next_revision (skip_element ⟨rest, p + 1⟩) f m t := by
  by_cases hm : match_namespace name = true
  · have h1 : name.local_name ≠ "format" := fun hh => h ⟨hm, Or.inl hh⟩
    have h2 : name.local_name ≠ "model" := fun hh => h ⟨hm, Or.inr (Or.inl hh)⟩
    have h3 : name.local_name ≠ "text" := fun hh => h ⟨hm, Or.inr (Or.inr hh)⟩
    simp [next_revision, hm, h1, h2, h3]
  · simp [next_revision, hm]

theorem next_revision_skip_step (name : OwnedName) (content : List XmlEvent)
    (hb : BalancedSeq content)
    (hn : ¬(match_namespace name = true ∧
      (name.local_name = "format" ∨ name.local_name = "model" ∨ name.local_name = "text")))
    (tail : List (Except XmlError XmlEvent)) (p : Nat) (f m t : Option String) :
    next_revision ⟨(RevItem.skip name content).events.map .ok ++ tail, p⟩ f m t
      = next_revision ⟨tail, p + (RevItem.skip name content).events.length⟩ f m t := by
  have hstream : (RevItem.skip name content).events.map Except.ok ++ tail
      = .ok (.startElement name) :: (content.map .ok ++ .ok .endElement :: tail) := by
    simp [RevItem.events]
  rw [hstream, next_revision_unrecognized name _ p f m t hn, skip_element_balanced hb]
  have harith : p + 1 + content.length + 1 = p + (RevItem.skip name content).events.length := by
    simp [RevItem.events]
    omega
  rw [harith]

theorem next_revision_stray_step (ev : XmlEvent)
    (h : ev = .other ∨ ∃ s, ev = .characters s)
    (tail : List (Except XmlError XmlEvent)) (p : Nat) (f m t : Option String) :
    next_revision ⟨(RevItem.stray ev).events.map .ok ++ tail, p⟩ f m t
      = next_revision ⟨tail, p + (RevItem.stray ev).events.length⟩ f m t := by
  rcases h with h | ⟨s, h⟩ <;> subst h <;> simp [RevItem.events, next_revision]

theorem next_revision_items :
    ∀ (items : List RevItem) (f m t : Option String) (rest : List (Except XmlError XmlEvent)) (p : Nat),
      (∀ it ∈ items, it.ok) →
      items.countP RevItem.isFormat + (if f.isSome then 1 else 0) ≤ 1 →
      items.countP RevItem.isModel + (if m.isSome then 1 else 0) ≤ 1 →
      items.countP RevItem.isText + (if t.isSome then 1 else 0) = 1 →
      next_revision ⟨(items.flatMap RevItem.events).map .ok ++ .ok .endElement :: rest, p⟩ f m t
        = (.ok (optMerge f (revFormat items), optMerge m (revModel items), optMerge t (revText items)),
           ⟨rest, p + (items.flatMap RevItem.events).length + 1⟩) := by
  intro items
  induction items with
  | nil =>
    intro f m t rest p hok hf hm ht
    rcases t with _ | tv
    · simp [List.countP_nil] at ht
    · rcases f with _ | fv <;> rcases m with _ | mv <;>
        simp [next_revision, optMerge, revFormat, revModel, revText]
  | cons it tail ih =>
    intro f m t rest p hok hf hm ht
    have hokit : it.ok := hok it (by simp)
    have hoktail : ∀ x ∈ tail, x.ok := fun x hx => hok x (by simp [hx])
    have hstream : ((it :: tail).flatMap RevItem.events).map Except.ok ++ .ok .endElement :: rest
        = it.events.map Except.ok
          ++ ((tail.flatMap RevItem.events).map Except.ok ++ .ok .endElement :: rest) := by
      simp
    rw [hstream]
    cases it with
    | format l =>
      have hfn : f = none := by
        rcases f with _ | fv
        · rfl
        · exfalso
          simp [List.countP_cons, RevItem.isFormat] at hf
      subst hfn
      have hfc : tail.countP RevItem.isFormat
          + (if (some l.value : Option String).isSome then 1 else 0) ≤ 1 := by
        simpa [List.countP_cons, RevItem.isFormat] using hf
      have hmc : tail.countP RevItem.isModel + (if m.isSome then 1 else 0) ≤ 1 := by
        simpa [List.countP_cons, RevItem.isModel] using hm
      have htc : tail.countP RevItem.isText + (if t.isSome then 1 else 0) = 1 := by
        simpa [List.countP_cons, RevItem.isText] using ht
      rw [next_revision_format_step, ih (some l.value) m t rest _ hoktail hfc hmc htc]
      simp [revFormat, revModel, revText, optMerge]
      omega
    | model l =>
      have hmn : m = none := by
        rcases m with _ | mv
        · rfl
        · exfalso
          simp [List.countP_cons, RevItem.isModel] at hm
      subst hmn
      have hfc : tail.countP RevItem.isFormat + (if f.isSome then 1 else 0) ≤ 1 := by
        simpa [List.countP_cons, RevItem.isFormat] using hf
      have hmc : tail.countP RevItem.isModel
          + (if (some l.value : Option String).isSome then 1 else 0) ≤ 1 := by
        simpa [List.countP_cons, RevItem.isModel] using hm
      have htc : tail.countP RevItem.isText + (if t.isSome then 1 else 0) = 1 := by
        simpa [List.countP_cons, RevItem.isText] using ht
      rw [next_revision_model_step, ih f (some l.value) t rest _ hoktail hfc hmc htc]
      simp [revFormat, revModel, revText, optMerge]
      omega
    | text l =>
      have htn : t = none := by
        rcases t with _ | tv
        · rfl
        · exfalso
          simp [List.countP_cons, RevItem.isText] at ht
      subst htn
      have hfc : tail.countP RevItem.isFormat + (if f.isSome then 1 else 0) ≤ 1 := by
        simpa [List.countP_cons, RevItem.isFormat] using hf
      have hmc : tail.countP RevItem.isModel + (if m.isSome then 1 else 0) ≤ 1 := by
        simpa [List.countP_cons, RevItem.isModel] using hm
      have htc : tail.countP RevItem.isText
          + (if (some l.value : Option String).isSome then 1 else 0) = 1 := by
        simpa [List.countP_cons, RevItem.isText] using ht
      rw [next_revision_text_step, ih f m (some l.value) rest _ hoktail hfc hmc htc]
      simp [revFormat, revModel, revText, optMerge]
      omega
    | skip name content =>
      simp only [RevItem.ok] at hokit
      have hfc : tail.countP RevItem.isFormat + (if f.isSome then 1 else 0) ≤ 1 := by
        simpa [List.countP_cons, RevItem.isFormat] using hf
      have hmc : tail.countP RevItem.isModel + (if m.isSome then 1 else 0) ≤ 1 := by
        simpa [List.countP_cons, RevItem.isModel] using hm
      have htc : tail.countP RevItem.isText + (if t.isSome then 1 else 0) = 1 := by
        simpa [List.countP_cons, RevItem.isText] using ht
      rw [next_revision_skip_step name content hokit.1 hokit.2, ih f m t rest _ hoktail hfc hmc htc]
      simp [revFormat, revModel, revText, optMerge]
      omega
    | stray ev =>
      simp only [RevItem.ok] at hokit
      have hfc : tail.countP RevItem.isFormat + (if f.isSome then 1 else 0) ≤ 1 := by
        simpa [List.countP_cons, RevItem.isFormat] using hf
      have hmc : tail.countP RevItem.isModel + (if m.isSome then 1 else 0) ≤ 1 := by
        simpa [List.countP_cons, RevItem.isModel] using hm
      have htc : tail.countP RevItem.isText + (if t.isSome then 1 else 0) = 1 := by
        simpa [List.countP_cons, RevItem.isText] using ht
      rw [next_revision_stray_step ev hokit, ih f m t rest _ hoktail hfc hmc htc]
      simp [revFormat, revModel, revText, optMerge]
      omega

theorem revText_isSome :
    ∀ (items : List RevItem), 1 ≤ items.countP RevItem.isText → (revText items).isSome = true := by
  intro items
  induction items with
  | nil => simp [List.countP_nil]
  | cons it tail ih =>
    intro h
    cases it with
    | text l => simp [revText]
    | format l =>
      simp only [List.countP_cons, RevItem.isText] at h
      simp only [revText]
      exact ih (by simpa using h)
    | model l =>
      simp only [List.countP_cons, RevItem.isText] at h
      simp only [revText]
      exact ih (by simpa using h)
    | skip name content =>
      simp only [List.countP_cons, RevItem.isText] at h
      simp only [revText]
      exact ih (by simpa using h)
    | stray ev =>
      simp only [List.countP_cons, RevItem.isText] at h
      simp only [revText]
      exact ih (by simpa using h)

/-- One item of the content of a `page` element. -/
inductive PageItem
  | title (l : Leaf)
  | ns (l : Leaf) (value : Nat)
  | revision (items : List RevItem)
  | skip (name : OwnedName) (content : List XmlEvent)
  | stray (ev : XmlEvent)

def PageItem.events : PageItem → List XmlEvent
  | .title l => .startElement ⟨"title", some "http://www.mediawiki.org/xml/export-0.10/"⟩ :: l.events
  | .ns l _ => .startElement ⟨"ns", some "http://www.mediawiki.org/xml/export-0.10/"⟩ :: l.events
  | .revision items =>
    .startElement ⟨"revision", some "http://www.mediawiki.org/xml/export-0.10/"⟩
      :: (items.flatMap RevItem.events ++ [.endElement])
  | .skip name content => .startElement name :: (content ++ [.endElement])
  | .stray ev => [ev]

/-- Well-formedness of one page item: the `ns` leaf must carry the decimal
numeral of its recorded value, a revision must hold exactly one `text` and
at most one `format` and one `model`, a skipped element must be a balanced
subtree with an unrecognized root, and a stray event must not be a tag. -/
def PageItem.ok : PageItem → Prop
  | .title _ => True
  | .ns l value => parseU32 l.value = some value
  | .revision items => (∀ it ∈ items, it.ok)
      ∧ items.countP RevItem.isFormat ≤ 1
      ∧ items.countP RevItem.isModel ≤ 1
      ∧ items.countP RevItem.isText = 1
  | .skip name content => BalancedSeq content ∧
      ¬(match_namespace name = true ∧
        (name.local_name = "ns" ∨ name.local_name = "revision" ∨ name.local_name = "title"))
  | .stray ev => ev = .other ∨ ∃ s, ev = .characters s

def PageItem.isTitle : PageItem → Bool
  | .title _ => true
  | _ => false

def PageItem.isNs : PageItem → Bool
  | .ns _ _ => true
  | _ => false

def PageItem.isRevision : PageItem → Bool
  | .revision _ => true
  | _ => false

def pageTitle : List PageItem → Option String
  | [] => none
  | .title l :: _ => some l.value
  | _ :: tail => pageTitle tail

def pageNs : List PageItem → Option Nat
  | [] => none
  | .ns _ value :: _ => some value
  | _ :: tail => pageNs tail

def pageFormat : List PageItem → Option String
  | [] => none
  | .revision items :: _ => revFormat items
  | _ :: tail => pageFormat tail

def pageModel : List PageItem → Option String
  | [] => none
  | .revision items :: _ => revModel items
  | _ :: tail => pageModel tail

def pageText : List PageItem → Option String
  | [] => none
  | .revision items :: _ => revText items
  | _ :: tail => pageText tail

theorem next_page_unrecognized (name : OwnedName) (rest : List (Except XmlError XmlEvent))
    (p : Nat) (f m : Option String) (ns : Option Nat) (tx ti : Option String)
    (h : ¬(match_namespace name = true ∧
      (name.local_name = "ns" ∨ name.local_name = "revision" ∨ name.local_name = "title"))) :
    next_page ⟨.ok (.startElement name) :: rest, p⟩ f m ns tx ti
      = next_page (skip_element ⟨rest, p + 1⟩) f m ns tx ti := by
  by_cases hm : match_namespace name = true
  · have h1 : name.local_name ≠ "ns" := fun hh => h ⟨hm, Or.inl hh⟩
    have h2 : name.local_name ≠ "revision" := fun hh => h ⟨hm, Or.inr (Or.inl hh)⟩
    have h3 : name.local_name ≠ "title" := fun hh => h ⟨hm, Or.inr (Or.inr hh)⟩
    simp [next_page, hm, h1, h2, h3]
  · simp [next_page, hm]

theorem next_root_unrecognized (name : OwnedName) (rest : List (Except XmlError XmlEvent))
    (p : Nat)
    (h : ¬(match_namespace name = true ∧ name.local_name = "page")) :
    next_root ⟨.ok (.startElement name) :: rest, p⟩ = next_root (skip_element ⟨rest, p + 1⟩) := by
  by_cases hm : match_namespace name = true
  · have hn : name.local_name ≠ "page" := fun hh => h ⟨hm, hh⟩
    simp [next_root, hm, hn]
  · simp [next_root, hm]

theorem next_page_title_step (l : Leaf) (tail : List (Except XmlError XmlEvent)) (p : Nat)
    (f m : Option String) (ns : Option Nat) (tx : Option String) :
    next_page ⟨(PageItem.title l).events.map .ok ++ tail, p⟩ f m ns tx none
      = next_page ⟨tail, p + (PageItem.title l).events.length⟩ f m ns tx (some l.value) := by
  simp only [PageItem.events, List.map_cons, List.cons_append, next_page, match_namespace,
    List.length_cons]
  rw [parse_text_leaf]
  have harith : p + 1 + l.events.length = p + (l.events.length + 1) := by omega
  rw [harith]
  simp

theorem next_page_ns_step (l : Leaf) (value : Nat) (hv : parseU32 l.value = some value)
    (tail : List (Except XmlError XmlEvent)) (p : Nat)
    (f m : Option String) (tx ti : Option String) :
    next_page ⟨(PageItem.ns l value).events.map .ok ++ tail, p⟩ f m none tx ti
      = next_page ⟨tail, p + (PageItem.ns l value).events.length⟩ f m (some value) tx ti := by
  simp only [PageItem.events, List.map_cons, List.cons_append, next_page, match_namespace,
    List.length_cons]
  rw [parse_text_leaf]
  have harith : p + 1 + l.events.length = p + (l.events.length + 1) := by omega
  rw [harith]
  simp [hv]

theorem next_page_revision_step (ritems : List RevItem)
    (hok : ∀ it ∈ ritems, it.ok)
    (f m : Option String)
    (hf : ritems.countP RevItem.isFormat + (if f.isSome then 1 else 0) ≤ 1)
    (hm : ritems.countP RevItem.isModel + (if m.isSome then 1 else 0) ≤ 1)
    (ht : ritems.countP RevItem.isText = 1)
    (tail : List (Except XmlError XmlEvent)) (p : Nat) (ns : Option Nat) (ti : Option String) :
    next_page ⟨(PageItem.revision ritems).events.map .ok ++ tail, p⟩ f m ns none ti
      = next_page ⟨tail, p + (PageItem.revision ritems).events.length⟩
          (optMerge f (revFormat ritems)) (optMerge m (revModel ritems)) ns
          (revText ritems) ti := by
  have hstream : (PageItem.revision ritems).events.map Except.ok ++ tail
      = .ok (.startElement ⟨"revision", some "http://www.mediawiki.org/xml/export-0.10/"⟩)
        :: ((ritems.flatMap RevItem.events).map .ok ++ .ok .endElement :: tail) := by
    simp [PageItem.events]
  rw [hstream]
  simp only [next_page, match_namespace]
  rw [next_revision_items ritems f m none tail (p + 1) hok (by simpa using hf) (by simpa using hm)
    (by simpa using ht)]
  simp only [optMerge]
  have harith : p + 1 + (ritems.flatMap RevItem.events).length + 1
      = p + (PageItem.revision ritems).events.length := by
    simp [PageItem.events]
    omega
  rw [harith]
  simp

theorem next_page_skip_step (name : OwnedName) (content : List XmlEvent)
    (hb : BalancedSeq content)
    (hn : ¬(match_namespace name = true ∧
      (name.local_name = "ns" ∨ name.local_name = "revision" ∨ name.local_name = "title")))
    (tail : List (Except XmlError XmlEvent)) (p : Nat)
    (f m : Option String) (ns : Option Nat) (tx ti : Option String) :
    next_page ⟨(PageItem.skip name content).events.map .ok ++ tail, p⟩ f m ns tx ti
      = next_page ⟨tail, p + (PageItem.skip name content).events.length⟩ f m ns tx ti := by
  have hstream : (PageItem.skip name content).events.map Except.ok ++ tail
      = .ok (.startElement name) :: (content.map .ok ++ .ok .endElement :: tail) := by
    simp [PageItem.events]
  rw [hstream, next_page_unrecognized name _ p f m ns tx ti hn, skip_element_balanced hb]
  have harith : p + 1 + content.length + 1 = p + (PageItem.skip name content).events.length := by
    simp [PageItem.events]
    omega
  rw [harith]

theorem next_page_stray_step (ev : XmlEvent)
    (h : ev = .other ∨ ∃ s, ev = .characters s)
    (tail : List (Except XmlError XmlEvent)) (p : Nat)
    (f m : Option String) (ns : Option Nat) (tx ti : Option String) :
    next_page ⟨(PageItem.stray ev).events.map .ok ++ tail, p⟩ f m ns tx ti
      = next_page ⟨tail, p + (PageItem.stray ev).events.length⟩ f m ns tx ti := by
  rcases h with h | ⟨s, h⟩ <;> subst h <;> simp [PageItem.events, next_page]

theorem page_extractors_none_of_no_revision :
    ∀ (items : List PageItem), items.countP PageItem.isRevision = 0 →
      pageFormat items = none ∧ pageModel items = none ∧ pageText items = none := by
  intro items
  induction items with
  | nil => intro h; simp [pageFormat, pageModel, pageText]
  | cons it tail ih =>
    intro h
    cases it with
    | revision ritems => simp [List.countP_cons, PageItem.isRevision] at h
    | title l =>
      simp only [List.countP_cons, PageItem.isRevision] at h
      simpa [pageFormat, pageModel, pageText] using ih (by simpa using h)
    | ns l v =>
      simp only [List.countP_cons, PageItem.isRevision] at h
      simpa [pageFormat, pageModel, pageText] using ih (by simpa using h)
    | skip name content =>
      simp only [List.countP_cons, PageItem.isRevision] at h
      simpa [pageFormat, pageModel, pageText] using ih (by simpa using h)
    | stray ev =>
      simp only [List.countP_cons, PageItem.isRevision] at h
      simpa [pageFormat, pageModel, pageText] using ih (by simpa using h)

theorem next_page_items :
    ∀ (items : List PageItem) (f m : Option String) (nsv : Option Nat) (tx ti : Option String)
      (rest : List (Except XmlError XmlEvent)) (p : Nat),
      (∀ it ∈ items, it.ok) →
      items.countP PageItem.isTitle + (if ti.isSome then 1 else 0) = 1 →
      items.countP PageItem.isNs + (if nsv.isSome then 1 else 0) = 1 →
      items.countP PageItem.isRevision + (if tx.isSome then 1 else 0) = 1 →
      (tx = none → f = none ∧ m = none) →
      next_page ⟨(items.flatMap PageItem.events).map .ok ++ .ok .endElement :: rest, p⟩ f m nsv tx ti
        = (.ok (some { format := optMerge f (pageFormat items),
                       model := optMerge m (pageModel items),
                       «namespace» := (optMerge nsv (pageNs items)).getD 0,
                       text := (optMerge tx (pageText items)).getD "",
                       title := (optMerge ti (pageTitle items)).getD "" }),
           ⟨rest, p + (items.flatMap PageItem.events).length + 1⟩) := by
  intro items
  induction items with
  | nil =>
    intro f m nsv tx ti rest p hok hti hns htx hinv
    rcases ti with _ | tiv
    · simp [List.countP_nil] at hti
    rcases nsv with _ | nsvv
    · simp [List.countP_nil] at hns
    rcases tx with _ | txv
    · simp [List.countP_nil] at htx
    rcases f with _ | fv <;> rcases m with _ | mv <;>
      simp [next_page, optMerge, pageFormat, pageModel, pageNs, pageText, pageTitle]
  | cons it tail ih =>
    intro f m nsv tx ti rest p hok hti hns htx hinv
    have hokit : it.ok := hok it (by simp)
    have hoktail : ∀ x ∈ tail, x.ok := fun x hx => hok x (by simp [hx])
    have hstream : ((it :: tail).flatMap PageItem.events).map Except.ok ++ .ok .endElement :: rest
        = it.events.map Except.ok
          ++ ((tail.flatMap PageItem.events).map Except.ok ++ .ok .endElement :: rest) := by
      simp
    rw [hstream]
    cases it with
    | title l =>
      have htin : ti = none := by
        rcases ti with _ | tiv
        · rfl
        · exfalso
          simp [List.countP_cons, PageItem.isTitle] at hti
      subst htin
      have h1 : tail.countP PageItem.isTitle
          + (if (some l.value : Option String).isSome then 1 else 0) = 1 := by
        simpa [List.countP_cons, PageItem.isTitle] using hti
      have h2 : tail.countP PageItem.isNs + (if nsv.isSome then 1 else 0) = 1 := by
        simpa [List.countP_cons, PageItem.isNs] using hns
      have h3 : tail.countP PageItem.isRevision + (if tx.isSome then 1 else 0) = 1 := by
        simpa [List.countP_cons, PageItem.isRevision] using htx
      rw [next_page_title_step, ih f m nsv tx (some l.value) rest _ hoktail h1 h2 h3 hinv]
      simp [pageFormat, pageModel, pageNs, pageText, pageTitle, optMerge]
      omega
    | ns l v =>
      have hnsn : nsv = none := by
        rcases nsv with _ | nsvv
        · rfl
        · exfalso
          simp [List.countP_cons, PageItem.isNs] at hns
      subst hnsn
      simp only [PageItem.ok] at hokit
      have h1 : tail.countP PageItem.isTitle + (if ti.isSome then 1 else 0) = 1 := by
        simpa [List.countP_cons, PageItem.isTitle] using hti
      have h2 : tail.countP PageItem.isNs
          + (if (some v : Option Nat).isSome then 1 else 0) = 1 := by
        simpa [List.countP_cons, PageItem.isNs] using hns
      have h3 : tail.countP PageItem.isRevision + (if tx.isSome then 1 else 0) = 1 := by
        simpa [List.countP_cons, PageItem.isRevision] using htx
      rw [next_page_ns_step l v hokit, ih f m (some v) tx ti rest _ hoktail h1 h2 h3 hinv]
      simp [pageFormat, pageModel, pageNs, pageText, pageTitle, optMerge]
      omega
    | revision ritems =>
      have htxn : tx = none := by
        rcases tx with _ | txv
        · rfl
        · exfalso
          simp [List.countP_cons, PageItem.isRevision] at htx
      subst htxn
      obtain ⟨hfn, hmn⟩ := hinv rfl
      subst hfn
      subst hmn
      simp only [PageItem.ok] at hokit
      obtain ⟨hrok, hrf, hrm, hrt⟩ := hokit
      have hcr0 : tail.countP PageItem.isRevision = 0 := by
        simpa [List.countP_cons, PageItem.isRevision] using htx
      have h1 : tail.countP PageItem.isTitle + (if ti.isSome then 1 else 0) = 1 := by
        simpa [List.countP_cons, PageItem.isTitle] using hti
      have h2 : tail.countP PageItem.isNs + (if nsv.isSome then 1 else 0) = 1 := by
        simpa [List.countP_cons, PageItem.isNs] using hns
      have hsome : (revText ritems).isSome = true := revText_isSome ritems (by omega)
      have h3 : tail.countP PageItem.isRevision
          + (if (revText ritems).isSome then 1 else 0) = 1 := by
        simp [hcr0, hsome]
      have hinv2 : revText ritems = none →
          (optMerge (none : Option String) (revFormat ritems)) = none ∧
          (optMerge (none : Option String) (revModel ritems)) = none := by
        intro hh
        rw [hh] at hsome
        simp at hsome
      rw [next_page_revision_step ritems hrok none none (by simpa using hrf)
        (by simpa using hrm) hrt, ih (optMerge none (revFormat ritems))
        (optMerge none (revModel ritems)) nsv (revText ritems) ti rest _ hoktail h1 h2 h3 hinv2]
      obtain ⟨he1, he2, he3⟩ := page_extractors_none_of_no_revision tail hcr0
      rcases hrev : revText ritems with _ | rv
      · rw [hrev] at hsome
        simp at hsome
      · simp [pageFormat, pageModel, pageNs, pageText, pageTitle, he1, he2, he3, hrev,
          optMerge_none_left, optMerge_none_right]
        omega
    | skip name content =>
      simp only [PageItem.ok] at hokit
      have h1 : tail.countP PageItem.isTitle + (if ti.isSome then 1 else 0) = 1 := by
        simpa [List.countP_cons, PageItem.isTitle] using hti
      have h2 : tail.countP PageItem.isNs + (if nsv.isSome then 1 else 0) = 1 := by
        simpa [List.countP_cons, PageItem.isNs] using hns
      have h3 : tail.countP PageItem.isRevision + (if tx.isSome then 1 else 0) = 1 := by
        simpa [List.countP_cons, PageItem.isRevision] using htx
      rw [next_page_skip_step name content hokit.1 hokit.2, ih f m nsv tx ti rest _ hoktail h1 h2 h3 hinv]
      simp [pageFormat, pageModel, pageNs, pageText, pageTitle, optMerge]
      omega
    | stray ev =>
      simp only [PageItem.ok] at hokit
      have h1 : tail.countP PageItem.isTitle + (if ti.isSome then 1 else 0) = 1 := by
        simpa [List.countP_cons, PageItem.isTitle] using hti
      have h2 : tail.countP PageItem.isNs + (if nsv.isSome then 1 else 0) = 1 := by
        simpa [List.countP_cons, PageItem.isNs] using hns
      have h3 : tail.countP PageItem.isRevision + (if tx.isSome then 1 else 0) = 1 := by
        simpa [List.countP_cons, PageItem.isRevision] using htx
      rw [next_page_stray_step ev hokit, ih f m nsv tx ti rest _ hoktail h1 h2 h3 hinv]
      simp [pageFormat, pageModel, pageNs, pageText, pageTitle, optMerge]
      omega

/-- One item of the content of the `mediawiki` root element. -/
inductive RootItem
  | page (items : List PageItem)
  | skip (name : OwnedName) (content : List XmlEvent)
  | stray (ev : XmlEvent)

def RootItem.events : RootItem → List XmlEvent
  | .page items =>
    .startElement ⟨"page", some "http://www.mediawiki.org/xml/export-0.10/"⟩
      :: (items.flatMap PageItem.events ++ [.endElement])
  | .skip name content => .startElement name :: (content ++ [.endElement])
  | .stray ev => [ev]

/-- Well-formedness of one root item: a page holds exactly one `title`, one
`ns` and one `revision`; skipped elements are balanced subtrees that are not
`page` elements of the export namespace; stray events are not tags. -/
def RootItem.ok : RootItem → Prop
  | .page items => (∀ it ∈ items, it.ok)
      ∧ items.countP PageItem.isTitle = 1
      ∧ items.countP PageItem.isNs = 1
      ∧ items.countP PageItem.isRevision = 1
  | .skip name content => BalancedSeq content ∧
      ¬(match_namespace name = true ∧ name.local_name = "page")
  | .stray ev => ev = .other ∨ ∃ s, ev = .characters s

/-- The `Page` record a well-formed page's items describe. -/
def pageOf (items : List PageItem) : Page :=
  { format := pageFormat items, model := pageModel items,
    «namespace» := (pageNs items).getD 0, text := (pageText items).getD "",
    title := (pageTitle items).getD "" }

/-- The page item lists of the `page` elements among the root items,
in document order. -/
def rootPages : List RootItem → List (List PageItem)
  | [] => []
  | .page items :: tail => items :: rootPages tail
  | _ :: tail => rootPages tail

theorem next_root_page_step (items : List PageItem)
    (hok : ∀ it ∈ items, it.ok)
    (h1 : items.countP PageItem.isTitle = 1)
    (h2 : items.countP PageItem.isNs = 1)
    (h3 : items.countP PageItem.isRevision = 1)
    (tail : List (Except XmlError XmlEvent)) (p : Nat) :
    next_root ⟨(RootItem.page items).events.map .ok ++ tail, p⟩
      = (.ok (some (pageOf items)), ⟨tail, p + (RootItem.page items).events.length⟩) := by
  have hstream : (RootItem.page items).events.map Except.ok ++ tail
      = .ok (.startElement ⟨"page", some "http://www.mediawiki.org/xml/export-0.10/"⟩)
        :: ((items.flatMap PageItem.events).map .ok ++ .ok .endElement :: tail) := by
    simp [RootItem.events]
  rw [hstream]
  simp only [next_root, match_namespace]
  rw [if_pos (by simp)]
  rw [next_page_items items none none none none none tail (p + 1) hok (by simpa using h1)
    (by simpa using h2) (by simpa using h3) (fun _ => ⟨rfl, rfl⟩)]
  simp only [optMerge_none_left, pageOf]
  have harith : p + 1 + (items.flatMap PageItem.events).length + 1
      = p + (RootItem.page items).events.length := by
    simp [RootItem.events]
    omega
  rw [harith]

theorem next_root_skip_step (name : OwnedName) (content : List XmlEvent)
    (hb : BalancedSeq content)
    (hn : ¬(match_namespace name = true ∧ name.local_name = "page"))
    (tail : List (Except XmlError XmlEvent)) (p : Nat) :
    next_root ⟨(RootItem.skip name content).events.map .ok ++ tail, p⟩
      = next_root ⟨tail, p + (RootItem.skip name content).events.length⟩ := by
  have hstream : (RootItem.skip name content).events.map Except.ok ++ tail
      = .ok (.startElement name) :: (content.map .ok ++ .ok .endElement :: tail) := by
    simp [RootItem.events]
  rw [hstream, next_root_unrecognized name _ p hn, skip_element_balanced hb]
  have harith : p + 1 + content.length + 1 = p + (RootItem.skip name content).events.length := by
    simp [RootItem.events]
    omega
  rw [harith]

theorem next_root_stray_step (ev : XmlEvent)
    (h : ev = .other ∨ ∃ s, ev = .characters s)
    (tail : List (Except XmlError XmlEvent)) (p : Nat) :
    next_root ⟨(RootItem.stray ev).events.map .ok ++ tail, p⟩
      = next_root ⟨tail, p + (RootItem.stray ev).events.length⟩ := by
  rcases h with h | ⟨s, h⟩ <;> subst h <;> simp [RootItem.events, next_root]

theorem iterOut_succ (parser : Parser) (n : Nat) :
    iterOut parser (n + 1) = (iterNext parser).1 :: iterOut (iterNext parser).2 n := rfl

theorem iterOut_next_root_eq (r1 r2 : Reader) (h : next_root r1 = next_root r2) :
    ∀ n, iterOut ⟨r1, true⟩ n = iterOut ⟨r2, true⟩ n := by
  intro n
  cases n with
  | zero => rfl
  | succ n => simp [iterOut, iterNext, next, h]

theorem iterOut_root_items :
    ∀ (ritems : List RootItem) (rest : List (Except XmlError XmlEvent)) (p : Nat),
      (∀ it ∈ ritems, it.ok) →
      iterOut ⟨⟨(ritems.flatMap RootItem.events).map .ok ++ .ok .endElement :: rest, p⟩, true⟩
          ((rootPages ritems).length + 1)
        = (rootPages ritems).map (fun items => some (Except.ok (pageOf items))) ++ [none] := by
  intro ritems
  induction ritems with
  | nil =>
    intro rest p hok
    simp [iterOut, iterNext, next, next_root, rootPages]
  | cons it tail ih =>
    intro rest p hok
    have hokit : it.ok := hok it (by simp)
    have hoktail : ∀ x ∈ tail, x.ok := fun x hx => hok x (by simp [hx])
    have hstream : ((it :: tail).flatMap RootItem.events).map Except.ok ++ .ok .endElement :: rest
        = it.events.map Except.ok
          ++ ((tail.flatMap RootItem.events).map Except.ok ++ .ok .endElement :: rest) := by
      simp
    rw [hstream]
    cases it with
    | page items =>
      simp only [RootItem.ok] at hokit
      obtain ⟨hpok, h1, h2, h3⟩ := hokit
      have hstep : iterNext ⟨⟨(RootItem.page items).events.map .ok
            ++ ((tail.flatMap RootItem.events).map Except.ok ++ .ok .endElement :: rest), p⟩, true⟩
          = (some (Except.ok (pageOf items)),
             ⟨⟨(tail.flatMap RootItem.events).map Except.ok ++ .ok .endElement :: rest,
               p + (RootItem.page items).events.length⟩, true⟩) := by
        simp [iterNext, next, next_root_page_step items hpok h1 h2 h3]
      rw [show rootPages (RootItem.page items :: tail) = items :: rootPages tail from rfl]
      simp only [List.length_cons, List.map_cons]
      rw [iterOut_succ, hstep]
      simp only [List.cons_append]
      rw [ih _ _ hoktail]
    | skip name content =>
      simp only [RootItem.ok] at hokit
      have hnr := next_root_skip_step name content hokit.1 hokit.2
        ((tail.flatMap RootItem.events).map Except.ok ++ .ok .endElement :: rest) p
      rw [show rootPages (RootItem.skip name content :: tail) = rootPages tail from rfl]
      rw [iterOut_next_root_eq _ _ hnr ((rootPages tail).length + 1)]
      exact ih _ _ hoktail
    | stray ev =>
      simp only [RootItem.ok] at hokit
      have hnr := next_root_stray_step ev hokit
        ((tail.flatMap RootItem.events).map Except.ok ++ .ok .endElement :: rest) p
      rw [show rootPages (RootItem.stray ev :: tail) = rootPages tail from rfl]
      rw [iterOut_next_root_eq _ _ hnr ((rootPages tail).length + 1)]
      exact ih _ _ hoktail

theorem find_root_prolog :
    ∀ (prolog : List XmlEvent), (∀ ev ∈ prolog, ∀ n, ev ≠ XmlEvent.startElement n) →
      ∀ (name : OwnedName), match_namespace name = true → name.local_name = "mediawiki" →
      ∀ (body : List (Except XmlError XmlEvent)) (p : Nat),
        find_root ⟨prolog.map .ok ++ .ok (.startElement name) :: body, p⟩
          = (.ok (), ⟨body, p + prolog.length + 1⟩) := by
  intro prolog
  induction prolog with
  | nil =>
    intro hp name h1 h2 body p
    simp [find_root, h1, h2]
  | cons ev tail ih =>
    intro hp name h1 h2 body p
    have hev : ∀ n, ev ≠ XmlEvent.startElement n := hp ev (by simp)
    have htail : ∀ x ∈ tail, ∀ n, x ≠ XmlEvent.startElement n := fun x hx => hp x (by simp [hx])
    cases ev with
    | startElement n => exact absurd rfl (hev n)
    | endElement =>
      simp only [List.map_cons, List.cons_append, find_root]
      rw [ih htail name h1 h2 body (p + 1)]
      have harith : p + 1 + tail.length + 1 = p + (tail.length + 1) + 1 := by omega
      simp [harith]
    | characters s =>
      simp only [List.map_cons, List.cons_append, find_root]
      rw [ih htail name h1 h2 body (p + 1)]
      have harith : p + 1 + tail.length + 1 = p + (tail.length + 1) + 1 := by omega
      simp [harith]
    | other =>
      simp only [List.map_cons, List.cons_append, find_root]
      rw [ih htail name h1 h2 body (p + 1)]
      have harith : p + 1 + tail.length + 1 = p + (tail.length + 1) + 1 := by omega
      simp [harith]

theorem iterOut_fresh (r r2 : Reader) (h : find_root r = (.ok (), r2)) (n : Nat) :
    iterOut ⟨r, false⟩ (n + 1) = iterOut ⟨r2, true⟩ (n + 1) := by
  simp [iterOut, iterNext, next, h]

/-- C1: for every well-formed document — arbitrary non-tag events before the
root, a `mediawiki` root in the export namespace, and any interleaving of
well-formed `page` elements with skippable subtrees and stray events —
iterating the parser yields exactly one `Ok` page per `page` element, in
document order, and then signals exhaustion. -/
theorem C1_pages_in_document_order (prolog : List XmlEvent) (rootName : OwnedName)
    (ritems : List RootItem) (trailing : List (Except XmlError XmlEvent))
    (hp : ∀ ev ∈ prolog, ∀ n, ev ≠ XmlEvent.startElement n)
    (h1 : match_namespace rootName = true) (h2 : rootName.local_name = "mediawiki")
    (hok : ∀ it ∈ ritems, it.ok) :
    iterOut (parse (prolog.map .ok ++ .ok (.startElement rootName)
        :: ((ritems.flatMap RootItem.events).map .ok ++ .ok .endElement :: trailing)))
        ((rootPages ritems).length + 1)
      = (rootPages ritems).map (fun items => some (Except.ok (pageOf items))) ++ [none] := by
  rw [parse]
  rw [iterOut_fresh _ _ (find_root_prolog prolog hp rootName h1 h2 _ 0)]
  exact iterOut_root_items ritems trailing (0 + prolog.length + 1) hok

theorem C1_witness :
    iterOut (parse [.ok .other, startEvent "mediawiki", startEvent "page", startEvent "title",
        charactersEvent "Test", endEvent, startEvent "ns", charactersEvent "0", endEvent,
        startEvent "revision", startEvent "text", charactersEvent "Hello", endEvent, endEvent,
        endEvent, endEvent]) 2
      = [some (.ok
          { format := none, model := none, «namespace» := 0, text := "Hello", title := "Test" }),
         none] := by
  have h := C1_pages_in_document_order [XmlEvent.other]
    ⟨"mediawiki", some "http://www.mediawiki.org/xml/export-0.10/"⟩
    [RootItem.page [PageItem.title (Leaf.chars "Test"), PageItem.ns (Leaf.chars "0") 0,
      PageItem.revision [RevItem.text (Leaf.chars "Hello")]]] []
    (by intro ev hev n; simp at hev; subst hev; simp)
    (by simp [match_namespace]) rfl
    (by
      intro it hit
      simp at hit
      subst hit
      refine ⟨?_, ?_, ?_, ?_⟩
      · intro x hx
        simp at hx
        rcases hx with hx | hx | hx <;> subst hx
        · exact trivial
        · simp [PageItem.ok, Leaf.value, parseU32]
        · refine ⟨?_, ?_, ?_, ?_⟩
          · intro y hy
            simp at hy
            subst hy
            exact trivial
          · simp [List.countP_cons, List.countP_nil, RevItem.isFormat]
          · simp [List.countP_cons, List.countP_nil, RevItem.isModel]
          · simp [List.countP_cons, List.countP_nil, RevItem.isText]
      · simp [List.countP_cons, List.countP_nil, PageItem.isTitle]
      · simp [List.countP_cons, List.countP_nil, PageItem.isNs]
      · simp [List.countP_cons, List.countP_nil, PageItem.isRevision])
  simpa [RootItem.events, PageItem.events, RevItem.events, Leaf.events, Leaf.value,
    startEvent, endEvent, charactersEvent, rootPages, pageOf, pageFormat, pageModel,
    pageNs, pageText, pageTitle, revFormat, revModel, revText] using h

theorem C3_witness :
    next_page (⟨[.ok .endElement], 5⟩ : Reader) none none none none none
      = (.error (.Format 6), ⟨[], 6⟩) :=
  C3_missing_required_field.1 [] 5 none none none none none (Or.inl rfl)

theorem C4_witness :
    next_page (⟨[.ok (.startElement ⟨"revision",
        some "http://www.mediawiki.org/xml/export-0.10/"⟩)], 0⟩ : Reader)
        none none none (some "X") none
      = (.error (.NotSupported 1), ⟨[], 1⟩) :=
  C4_second_revision_not_supported.1 ⟨"revision", some "http://www.mediawiki.org/xml/export-0.10/"⟩
    [] 0 none none none "X" none (by simp [match_namespace]) rfl

theorem C5_witness :
    parse_text (⟨[], 7⟩ : Reader) (some "already") = (.error (.Format 7), ⟨[], 7⟩)
  ∧ parse_text (⟨[.ok .other], 0⟩ : Reader) (none : Option String)
      = (.error (.Format 1), ⟨[], 1⟩)
  ∧ parse_text (⟨[.ok (.characters "a"), .ok .other], 0⟩ : Reader) (none : Option String)
      = (.error (.Format 2), ⟨[], 2⟩)
  ∧ next_page (⟨[.ok (.startElement ⟨"ns",
        some "http://www.mediawiki.org/xml/export-0.10/"⟩)], 0⟩ : Reader)
        none none (some 0) none none
      = (.error (.Format 1), ⟨[], 1⟩) :=
  ⟨C5_parse_text_contract.1 String ⟨[], 7⟩ (some "already") rfl,
   C5_parse_text_contract.2.2.2.1 .other [] 0 (by simp) (by simp),
   C5_parse_text_contract.2.2.2.2.1 "a" .other [] 0 (by simp),
   C5_parse_text_contract.2.2.2.2.2 ⟨"ns", some "http://www.mediawiki.org/xml/export-0.10/"⟩
     [] 0 none none 0 none none (by simp [match_namespace]) rfl⟩

theorem C6_witness :
    find_root (⟨[.ok .other, .ok (.startElement ⟨"mediawiki", none⟩)], 0⟩ : Reader)
      = (.error (.Format 2), ⟨[], 2⟩)
  ∧ find_root (⟨[.ok (.startElement ⟨"mediawiki",
        some "http://www.mediawiki.org/xml/export-0.10/"⟩)], 0⟩ : Reader)
      = (.ok (), ⟨[], 1⟩) := by
  constructor
  · rw [C6_root_check.1 .other [.ok (.startElement ⟨"mediawiki", none⟩)] 0 (by simp)]
    exact C6_root_check.2.1 ⟨"mediawiki", none⟩ [] 1 (by simp [match_namespace])
  · exact C6_root_check.2.2.1 ⟨"mediawiki", some "http://www.mediawiki.org/xml/export-0.10/"⟩
      [] 0 (by simp [match_namespace]) rfl

theorem C7_witness :
    next_page (⟨[.ok (.startElement ⟨"ns", some "http://www.mediawiki.org/xml/export-0.10/"⟩),
        .ok (.characters "abc"), .ok .endElement], 0⟩ : Reader) none none none none none
      = (.error (.Format 3), ⟨[], 3⟩)
  ∧ next_page (⟨[.ok (.startElement ⟨"ns", some "http://www.mediawiki.org/xml/export-0.10/"⟩),
        .ok (.characters "14"), .ok .endElement], 0⟩ : Reader) none none none none none
      = next_page (⟨[], 3⟩ : Reader) none none (some 14) none none :=
  ⟨C7_ns_parsed_as_u32.1 ⟨"ns", some "http://www.mediawiki.org/xml/export-0.10/"⟩ "abc" [] 0
     none none none none (by simp [match_namespace]) rfl (by simp [parseU32]),
   C7_ns_parsed_as_u32.2.1 ⟨"ns", some "http://www.mediawiki.org/xml/export-0.10/"⟩ "14" 14 [] 0
     none none none none (by simp [match_namespace]) rfl (by simp [parseU32])⟩

theorem C8_witness :
    skip_element (⟨[.ok (.startElement ⟨"a", none⟩), .ok .endElement, .ok .endElement,
        .ok (.characters "after")], 3⟩ : Reader)
      = (⟨[.ok (.characters "after")], 6⟩ : Reader)
  ∧ next_page (⟨[.ok (.startElement ⟨"contributor",
        some "http://www.mediawiki.org/xml/export-0.10/"⟩)], 0⟩ : Reader) none none none none none
      = next_page (skip_element (⟨[], 1⟩ : Reader)) none none none none none := by
  constructor
  · have h := C8_subtree_skipper.1 [.startElement ⟨"a", none⟩, .endElement]
      [.ok (.characters "after")] 3
      (BalancedSeq.elem ⟨"a", none⟩ [] [] BalancedSeq.nil BalancedSeq.nil)
    simpa using h
  · exact C8_subtree_skipper.2.2.1 ⟨"contributor",
      some "http://www.mediawiki.org/xml/export-0.10/"⟩ [] 0 none none none none none
      (by simp)

theorem C10_witness :
    parseU32 "4294967296" = none
    ∧ next_page (⟨[.ok (.startElement ⟨"ns",
        some "http://www.mediawiki.org/xml/export-0.10/"⟩),
        .ok (.characters "4294967296"), .ok .endElement], 0⟩ : Reader) none none none none none
      = (.error (.Format 3), ⟨[], 3⟩) := by
  have h := C10_ns_overflow "4294967296"
    ⟨"ns", some "http://www.mediawiki.org/xml/export-0.10/"⟩ [] 0 none none none none
    (by decide) (by decide) (by decide) (by simp [match_namespace]) rfl
  exact ⟨h.1, h.2.1⟩
